import Mathlib

/-!
Shallow embedding of `src/inference/utils/blend.py` from the
`slf_segmentation` repository, together with proofs about the claims of
its specification.

Arithmetic is modelled exactly over the real numbers (the Python code
computes in float32/float16; the specification documents the
reduced-precision weight storage as a memory tradeoff, not a correctness
requirement).  File-system access, GeoTIFF reading and writing, progress
printing and the optional mask branch (`mask_file=None` path is the one
modelled) are external I/O and are outside the numeric model.
-/

/-- Errors raised by `blend_patches_to_raster`.  `fileNotFoundError` models
Python's `FileNotFoundError("No patches found")` (the spec's
`InputNotFoundError`); `valueErrorBlend` models the `ValueError` raised for
an unknown blend mode (the spec's `ConfigurationError`);
`broadcastValueError` models the `ValueError` numpy raises when an in-place
add has broadcast-incompatible shapes.  `geometryInconsistencyError` is
modelled from the spec: the spec's error taxonomy names a
`GeometryInconsistencyError` for patches falling outside the canvas, but no
such exception exists anywhere in the source. -/
inductive PyErr where
  | fileNotFoundError : PyErr
  | valueErrorBlend : PyErr
  | broadcastValueError : PyErr
  | geometryInconsistencyError : PyErr
  deriving DecidableEq

/-- Whether an `Except` computation succeeded. -/
def exceptIsOk {ε α : Type _} : Except ε α → Bool
  | .ok _ => true
  | .error _ => false

/-- A two-dimensional array of real samples indexed by (row, column).
Arrays of shape h × w are modelled as total functions; values outside the
index range are never consulted by the theorems. -/
abbrev Grid : Type := ℕ → ℕ → ℝ

/-- Embedding of `_distance_weight` (blend.py lines 10-20):
`dist_y = minimum(yy, h-1-yy)`, `dist_x = minimum(xx, w-1-xx)`,
`dist = minimum(dist_y, dist_x)`, `norm = maximum(dist / (0.5*min(h,w)), 0)`.
The final `astype(np.float16)` cast is dropped (exact model). -/
noncomputable def distance_weight (h w : ℕ) : Grid := fun i j =>
  max (((min (min i (h - 1 - i)) (min j (w - 1 - j)) : ℕ) : ℝ) /
    ((1 / 2) * ((min h w : ℕ) : ℝ))) 0

/-- Embedding of `np.hanning(M)` at index `k`.  Following the numpy
source: `hanning(1)` is `ones(1)`, and otherwise the window value at
index `k` is `0.5 + 0.5*cos(pi*n/(M-1))` with `n = 2*k - (M-1)`. -/
noncomputable def hanning (M k : ℕ) : ℝ :=
  if M = 1 then 1
  else 1 / 2 + 1 / 2 * Real.cos (Real.pi * (2 * (k : ℝ) - ((M : ℝ) - 1)) / ((M : ℝ) - 1))

/-- Embedding of `_hann_weight` (blend.py lines 23-29): the outer product
`np.outer(np.hanning(h), np.hanning(w))`; the `float16` cast is dropped. -/
noncomputable def hann_weight (h w : ℕ) : Grid := fun i j => hanning h i * hanning w j

/-- Weight-map dispatch of the blending loop (blend.py lines 97-104): the
`if/elif/elif/else raise ValueError` chain on the `blend` string. -/
noncomputable def weight_dispatch (blend : String) (h w : ℕ) : Except PyErr Grid :=
  if blend = "average" then .ok fun _ _ => 1
  else if blend = "smooth" then .ok (distance_weight h w)
  else if blend = "hann" then .ok (hann_weight h w)
  else .error .valueErrorBlend

/-- The weight map produced for a recognised blend mode (zero map for an
unrecognised mode, which the accumulation loop never reaches). -/
noncomputable def weightFn (blend : String) (h w : ℕ) : Grid :=
  match weight_dispatch blend h w with
  | .ok g => g
  | .error _ => fun _ _ => 0

/-- Python's built-in `round` applied to a real value: round half to even. -/
noncomputable def pyRound (x : ℝ) : ℤ :=
  if x - (⌊x⌋ : ℝ) = 1 / 2 then (if Even ⌊x⌋ then ⌊x⌋ else ⌊x⌋ + 1) else round x

/-- Resolution of a Python slice endpoint against an axis of length `n`:
a negative endpoint counts from the end, and endpoints clamp to [0, n]. -/
def pyIdx (n : ℕ) (i : ℤ) : ℕ :=
  if i < 0 then ((n : ℤ) + i).toNat else min i.toNat n

/-- Embedding of the in-place numpy update `acc[ro:ro+h, co:co+w] += B`
for a canvas of shape `H × W` and a patch array `B` of shape `h × w`
(blend.py lines 110-111).  numpy clips the destination window to the
canvas; the addition succeeds iff each axis of `B` equals the clipped
window length or equals 1 (broadcasting repeats a length-1 axis), and
raises `ValueError` otherwise. -/
noncomputable def sliceAdd (acc : Grid) (H W : ℕ) (ro co : ℤ) (h w : ℕ) (B : Grid) :
    Except PyErr Grid :=
  let rs := pyIdx H ro
  let re := pyIdx H (ro + (h : ℤ))
  let cs := pyIdx W co
  let ce := pyIdx W (co + (w : ℤ))
  if (h = re - rs ∨ h = 1) ∧ (w = ce - cs ∨ w = 1) then
    .ok fun i j =>
      if rs ≤ i ∧ i < re ∧ cs ≤ j ∧ j < ce then
        acc i j + B (if h = 1 then 0 else i - rs) (if w = 1 then 0 else j - cs)
      else acc i j
  else .error .broadcastValueError

/-- A single-band raster patch: shape, pixel data and affine transform as
rasterio exposes them.  `left`/`top` are `src.transform * (0, 0)`, and
`psx`/`psy` are `transform.a` and `-transform.e`. -/
structure Patch where
  h : ℕ
  w : ℕ
  data : Grid
  left : ℝ
  top : ℝ
  psx : ℝ
  psy : ℝ

/-- Right edge of `src.bounds`: `left + w * transform.a`. -/
noncomputable def Patch.right (p : Patch) : ℝ := p.left + (p.w : ℝ) * p.psx

/-- Bottom edge of `src.bounds`: `top - h * pixel_size_y`. -/
noncomputable def Patch.bottom (p : Patch) : ℝ := p.top - (p.h : ℝ) * p.psy

/-- The `minx` accumulated by the bounds loop of blend.py lines 73-80:
running minimum of the patches' left edges, seeded by the first patch. -/
noncomputable def minxOf : List Patch → ℝ
  | [] => 0
  | p :: ps => ps.foldl (fun m q => min m q.left) p.left

/-- The `miny` of the bounds loop: running minimum of the bottom edges. -/
noncomputable def minyOf : List Patch → ℝ
  | [] => 0
  | p :: ps => ps.foldl (fun m q => min m q.bottom) p.bottom

/-- The `maxx` of the bounds loop: running maximum of the right edges. -/
noncomputable def maxxOf : List Patch → ℝ
  | [] => 0
  | p :: ps => ps.foldl (fun m q => max m q.right) p.right

/-- The `maxy` of the bounds loop: running maximum of the top edges. -/
noncomputable def maxyOf : List Patch → ℝ
  | [] => 0
  | p :: ps => ps.foldl (fun m q => max m q.top) p.top

/-- Pixel width taken from the reference (first) patch: `transform_ref.a`. -/
noncomputable def psxRef : List Patch → ℝ
  | [] => 0
  | p :: _ => p.psx

/-- Pixel height taken from the reference (first) patch: `-transform_ref.e`. -/
noncomputable def psyRef : List Patch → ℝ
  | [] => 0
  | p :: _ => p.psy

/-- Canvas width `int(np.ceil((maxx - minx) / pixel_size_x))` (line 82). -/
noncomputable def canvasWidthZ (ps : List Patch) : ℤ :=
  Int.ceil ((maxxOf ps - minxOf ps) / psxRef ps)

/-- Canvas height `int(np.ceil((maxy - miny) / pixel_size_y))` (line 83). -/
noncomputable def canvasHeightZ (ps : List Patch) : ℤ :=
  Int.ceil ((maxyOf ps - minyOf ps) / psyRef ps)

/-- Canvas width as the array dimension used by `np.zeros`. -/
noncomputable def canvasW (ps : List Patch) : ℕ := (canvasWidthZ ps).toNat

/-- Canvas height as the array dimension used by `np.zeros`. -/
noncomputable def canvasH (ps : List Patch) : ℕ := (canvasHeightZ ps).toNat

/-- Column offset of a patch: `int(round((left - minx) / pixel_size_x))`
(blend.py line 107). -/
noncomputable def colOff (mnx psx : ℝ) (p : Patch) : ℤ :=
  pyRound ((p.left - mnx) / psx)

/-- Row offset of a patch: `int(round((maxy - top) / pixel_size_y))`
(blend.py line 108). -/
noncomputable def rowOff (mxy psy : ℝ) (p : Patch) : ℤ :=
  pyRound ((mxy - p.top) / psy)

/-- One iteration of the blending loop (blend.py lines 92-111): compute
the patch's weight map (raising for an unknown mode), its row/column
offsets, and add `data * weight` and `weight` into the two accumulators. -/
noncomputable def accumStep (blend : String) (mnx mxy psx psy : ℝ) (H W : ℕ)
    (st : Grid × Grid) (p : Patch) : Except PyErr (Grid × Grid) :=
  match weight_dispatch blend p.h p.w with
  | .error e => .error e
  | .ok wt =>
    let ro := rowOff mxy psy p
    let co := colOff mnx psx p
    match sliceAdd st.1 H W ro co p.h p.w (fun i j => p.data i j * wt i j) with
    | .error e => .error e
    | .ok acc1 =>
      match sliceAdd st.2 H W ro co p.h p.w wt with
      | .error e => .error e
      | .ok ws1 => .ok (acc1, ws1)

/-- The full accumulation phase: the zero-initialised accumulator pair
(`acc`, `weight_sum`) folded through the patch loop. -/
noncomputable def accumulate (blend : String) (mnx mxy psx psy : ℝ) (H W : ℕ)
    (ps : List Patch) : Except PyErr (Grid × Grid) :=
  ps.foldlM (accumStep blend mnx mxy psx psy H W) (fun _ _ => 0, fun _ _ => 0)

/-- Embedding of `np.divide(acc, weight_sum, out=np.zeros_like(acc),
where=(weight_sum > 0))` (blend.py line 114): divide where the weight sum
is positive, keep the zero of the `out` buffer elsewhere. -/
noncomputable def np_divide (a b : Grid) : Grid := fun i j =>
  if 0 < b i j then a i j / b i j else 0

/-- Embedding of `np.clip(x, lo, hi)`. -/
noncomputable def np_clip (x lo hi : ℝ) : ℝ := min (max x lo) hi

/-- Cast of a (clipped, hence non-negative) float to an unsigned integer
type: truncation toward zero. -/
noncomputable def astype_uint (x : ℝ) : ℕ := (Int.floor x).toNat

/-- Quantisation for `uint16`: `np.clip(result, 0, 65535).astype(np.uint16)`. -/
noncomputable def quant_u16 (x : ℝ) : ℕ := astype_uint (np_clip x 0 65535)

/-- Quantisation for `uint8`: `np.clip(result, 0, 255).astype(np.uint8)`. -/
noncomputable def quant_u8 (x : ℝ) : ℕ := astype_uint (np_clip x 0 255)

/-- The dtype conversion step (blend.py lines 132-136).  The code has no
`else` branch: a dtype other than "uint16"/"uint8" leaves the float result
untouched. -/
noncomputable def quantizeArr (dtype : String) (r : Grid) : Grid :=
  if dtype = "uint16" then fun i j => (quant_u16 (r i j) : ℝ)
  else if dtype = "uint8" then fun i j => (quant_u8 (r i j) : ℝ)
  else r

/-- Result of `blend_patches_to_raster` up to and including the
normalisation step (the `result` array of line 114), on the
`mask_file=None` path.  An empty patch list raises
`FileNotFoundError("No patches found")` (line 62) before anything else. -/
noncomputable def blendNormalized (ps : List Patch) (blend : String) :
    Except PyErr Grid :=
  match ps with
  | [] => .error .fileNotFoundError
  | p₀ :: _ =>
    match accumulate blend (minxOf ps) (maxyOf ps) p₀.psx p₀.psy
        (canvasH ps) (canvasW ps) ps with
    | .error e => .error e
    | .ok st => .ok (np_divide st.1 st.2)

/-- The array written to the output file together with the canvas shape. -/
structure BlendOutput where
  height : ℕ
  width : ℕ
  result : Grid

/-- Embedding of `blend_patches_to_raster(output_path, patch_files,
blend=..., dtype=..., mask_file=None)`: canvas sizing, accumulation,
normalisation and dtype conversion.  Writing the GeoTIFF and its metadata
are external I/O. -/
noncomputable def blend_patches_to_raster (ps : List Patch) (blend dtype : String) :
    Except PyErr BlendOutput :=
  match blendNormalized ps blend with
  | .error e => .error e
  | .ok r => .ok ⟨canvasH ps, canvasW ps, quantizeArr dtype r⟩

/-- Value of a successful grid result at a pixel (0 on error). -/
noncomputable def gridAt (e : Except PyErr Grid) (i j : ℕ) : ℝ :=
  match e with
  | .ok r => r i j
  | .error _ => 0

/-- Value of a successful blend output at a pixel (0 on error). -/
noncomputable def outputAt (e : Except PyErr BlendOutput) (i j : ℕ) : ℝ :=
  match e with
  | .ok o => o.result i j
  | .error _ => 0

/-- Broadcast-compatibility of a patch window against the canvas: the
success condition of `sliceAdd`. -/
def bcOK (H W : ℕ) (ro co : ℤ) (h w : ℕ) : Prop :=
  (h = pyIdx H (ro + (h : ℤ)) - pyIdx H ro ∨ h = 1)
  ∧ (w = pyIdx W (co + (w : ℤ)) - pyIdx W co ∨ w = 1)

/-- The increment a clipped window add contributes at each canvas pixel. -/
noncomputable def winMask (H W : ℕ) (ro co : ℤ) (h w : ℕ) (B : Grid) : Grid := fun i j =>
  if pyIdx H ro ≤ i ∧ i < pyIdx H (ro + (h : ℤ))
      ∧ pyIdx W co ≤ j ∧ j < pyIdx W (co + (w : ℤ)) then
    B (if h = 1 then 0 else i - pyIdx H ro) (if w = 1 then 0 else j - pyIdx W co)
  else 0

/-- Concrete 4×4 patch with constant value 5, upper-left corner at (0, 4),
pixel size 1×1; its bounds are (0, 0, 4, 4). -/
noncomputable def patchA : Patch := ⟨4, 4, fun _ _ => 5, 0, 4, 1, 1⟩

/-- Concrete 1×4 patch with constant value 9, upper-left corner at
(0, 1/4), pixel size 1 × 1/4; its bounds are (0, 0, 4, 1/4).  Blended
together with `patchA` its single pixel row maps to canvas row 4, one past
the last canvas row. -/
noncomputable def patchB : Patch := ⟨1, 4, fun _ _ => 9, 0, 1 / 4, 1, 1 / 4⟩

/-- Concrete 3×3 patch with constant value 5, upper-left corner at (0, 3),
pixel size 1×1. -/
noncomputable def patchS : Patch := ⟨3, 3, fun _ _ => 5, 0, 3, 1, 1⟩

/-- Concrete 1×1 patch with constant value 70000, upper-left corner at
(0, 1), pixel size 1×1. -/
noncomputable def patchQ : Patch := ⟨1, 1, fun _ _ => 70000, 0, 1, 1, 1⟩

/-! Helper lemmas about `pyRound`, `distance_weight` and `hanning`. -/

lemma pyRound_eq {x : ℝ} {n : ℤ} (h1 : (n : ℝ) - 1 / 2 < x) (h2 : x < (n : ℝ) + 1 / 2) :
    pyRound x = n := by
  have hfl : x - (⌊x⌋ : ℝ) ≠ 1 / 2 := by
    intro hx
    have hlt : (⌊x⌋ : ℝ) < (n : ℝ) := by linarith
    have hgt : (n : ℝ) - 1 < (⌊x⌋ : ℝ) := by linarith
    have h1' : ⌊x⌋ < n := by exact_mod_cast hlt
    have h2' : n - 1 < ⌊x⌋ := by exact_mod_cast hgt
    omega
  rw [pyRound, if_neg hfl, round_eq]
  refine Int.floor_eq_iff.mpr ⟨by linarith, by linarith⟩

lemma pyRound_zero : pyRound 0 = 0 := by
  have h := pyRound_eq (x := 0) (n := 0) (by norm_num) (by norm_num)
  simpa using h

lemma distance_weight_nonneg (h w i j : ℕ) : 0 ≤ distance_weight h w i j :=
  le_max_right _ _

lemma distance_weight_border (h w i j : ℕ) (hi : i < h) (hj : j < w)
    (hij : i = 0 ∨ j = 0 ∨ i = h - 1 ∨ j = w - 1) :
    distance_weight h w i j = 0 := by
  have hd : min (min i (h - 1 - i)) (min j (w - 1 - j)) = 0 := by omega
  rw [distance_weight, hd]
  norm_num

lemma distance_weight_lt_one (h w i j : ℕ) (hh : 1 ≤ h) (hw : 1 ≤ w)
    (hi : i < h) (hj : j < w) : distance_weight h w i j < 1 := by
  rw [distance_weight, max_lt_iff]
  refine ⟨?_, by norm_num⟩
  have hm : (0 : ℝ) < ((min h w : ℕ) : ℝ) := by
    have : 1 ≤ min h w := by omega
    exact_mod_cast Nat.lt_of_lt_of_le Nat.zero_lt_one this
  rw [div_lt_one (by positivity)]
  have hd : 2 * min (min i (h - 1 - i)) (min j (w - 1 - j)) < min h w := by omega
  have hd' : 2 * ((min (min i (h - 1 - i)) (min j (w - 1 - j)) : ℕ) : ℝ) <
      ((min h w : ℕ) : ℝ) := by exact_mod_cast hd
  linarith

lemma distance_weight_center (h w : ℕ) (hh : Odd h) (hw : Odd w) :
    distance_weight h w ((h - 1) / 2) ((w - 1) / 2) =
      (((min h w : ℕ) : ℝ) - 1) / ((min h w : ℕ) : ℝ) := by
  obtain ⟨a, ha⟩ := hh
  obtain ⟨b, hb⟩ := hw
  have hd : min (min ((h - 1) / 2) (h - 1 - (h - 1) / 2))
      (min ((w - 1) / 2) (w - 1 - (w - 1) / 2)) = min a b := by omega
  have hm : min h w = 2 * min a b + 1 := by omega
  rw [distance_weight, hd, hm]
  rw [max_eq_left (by positivity)]
  have hpos : (0 : ℝ) < 2 * (min a b : ℝ) + 1 := by positivity
  push_cast
  rw [div_eq_div_iff (by linarith) (by linarith)]
  ring

lemma hanning_one (k : ℕ) : hanning 1 k = 1 := by rw [hanning, if_pos rfl]

lemma hanning_nonneg (M k : ℕ) : 0 ≤ hanning M k := by
  rw [hanning]
  split
  · norm_num
  · nlinarith [Real.neg_one_le_cos (Real.pi * (2 * (k : ℝ) - ((M : ℝ) - 1)) / ((M : ℝ) - 1))]

lemma hanning_le_one (M k : ℕ) : hanning M k ≤ 1 := by
  rw [hanning]
  split
  · norm_num
  · nlinarith [Real.cos_le_one (Real.pi * (2 * (k : ℝ) - ((M : ℝ) - 1)) / ((M : ℝ) - 1))]

lemma hanning_first (M : ℕ) (hM : 2 ≤ M) : hanning M 0 = 0 := by
  rw [hanning, if_neg (by omega)]
  have hM1 : ((M : ℝ) - 1) ≠ 0 := by
    have : (2 : ℝ) ≤ (M : ℝ) := by exact_mod_cast hM
    linarith
  have harg : Real.pi * (2 * ((0 : ℕ) : ℝ) - ((M : ℝ) - 1)) / ((M : ℝ) - 1) = -Real.pi := by
    push_cast
    rw [div_eq_iff hM1]
    ring
  rw [harg, Real.cos_neg, Real.cos_pi]
  norm_num

lemma hanning_last (M : ℕ) (hM : 2 ≤ M) : hanning M (M - 1) = 0 := by
  rw [hanning, if_neg (by omega)]
  have hM1 : ((M : ℝ) - 1) ≠ 0 := by
    have : (2 : ℝ) ≤ (M : ℝ) := by exact_mod_cast hM
    linarith
  have hcast : ((M - 1 : ℕ) : ℝ) = (M : ℝ) - 1 := by
    have h1 : 1 ≤ M := by omega
    push_cast [h1]
    ring
  have harg : Real.pi * (2 * ((M - 1 : ℕ) : ℝ) - ((M : ℝ) - 1)) / ((M : ℝ) - 1) = Real.pi := by
    rw [hcast, div_eq_iff hM1]
    ring
  rw [harg, Real.cos_pi]
  norm_num

lemma hanning_two (k : ℕ) (hk : k < 2) : hanning 2 k = 0 := by
  interval_cases k
  · exact hanning_first 2 (by norm_num)
  · exact hanning_last 2 (by norm_num)

lemma hann_weight_nonneg (h w i j : ℕ) : 0 ≤ hann_weight h w i j :=
  mul_nonneg (hanning_nonneg h i) (hanning_nonneg w j)

lemma hann_weight_le_one (h w i j : ℕ) : hann_weight h w i j ≤ 1 :=
  mul_le_one₀ (hanning_le_one h i) (hanning_nonneg w j) (hanning_le_one w j)

lemma weightFn_average (h w : ℕ) : weightFn "average" h w = fun _ _ => (1 : ℝ) := rfl

lemma weightFn_smooth (h w : ℕ) : weightFn "smooth" h w = distance_weight h w := rfl

lemma weightFn_hann (h w : ℕ) : weightFn "hann" h w = hann_weight h w := rfl

/-! Claim C3: the EdgeDistance ("smooth") weight map. -/

/-- C3 counterexample: the claim says the EdgeDistance weight "at the
geometric center of the patch equals 1", but for a 5×5 patch the value at
the center cell (2,2) is 4/5, not 1 (the code divides the distance 2 by
half the dimension, 2.5, and never reaches 1). -/
theorem C3_counterexample :
    distance_weight 5 5 2 2 = 4 / 5 ∧ distance_weight 5 5 2 2 ≠ 1 := by
  have hd : (min (min 2 (5 - 1 - 2)) (min 2 (5 - 1 - 2)) : ℕ) = 2 := by decide
  have hm : (min 5 5 : ℕ) = 5 := by decide
  have e : distance_weight 5 5 2 2 = 4 / 5 := by
    simp only [distance_weight, hd, hm]
    rw [max_eq_left (by norm_num)]
    norm_num
  exact ⟨e, by rw [e]; norm_num⟩

/-- C3 (amended): for every h ≥ 1, w ≥ 1, the EdgeDistance weight map is
the distance to the nearest border divided by half the shorter dimension;
it is exactly 0 on the outermost border ring, every value lies in [0, 1)
(so the clamp to [0,1] is vacuous and the value 1 is never attained), and
at the geometric center of an odd×odd patch the value is (m-1)/m with
m = min(h,w) — not 1 as the claim states. -/
theorem C3_edge_distance_weight (h w : ℕ) (hh : 1 ≤ h) (hw : 1 ≤ w) :
    (∀ i < h, ∀ j < w, (i = 0 ∨ j = 0 ∨ i = h - 1 ∨ j = w - 1) →
      distance_weight h w i j = 0)
    ∧ (∀ i < h, ∀ j < w, 0 ≤ distance_weight h w i j ∧ distance_weight h w i j < 1)
    ∧ (Odd h → Odd w → distance_weight h w ((h - 1) / 2) ((w - 1) / 2)
        = (((min h w : ℕ) : ℝ) - 1) / ((min h w : ℕ) : ℝ)) := by
  refine ⟨fun i hi j hj hij => distance_weight_border h w i j hi hj hij,
    fun i hi j hj => ⟨distance_weight_nonneg h w i j,
      distance_weight_lt_one h w i j hh hw hi hj⟩,
    fun h1 h2 => distance_weight_center h w h1 h2⟩

/-- C3 witness: at a 5×5 patch the center value is (5-1)/5. -/
theorem C3_edge_distance_weight_witness :
    distance_weight 5 5 ((5 - 1) / 2) ((5 - 1) / 2)
      = (((min 5 5 : ℕ) : ℝ) - 1) / ((min 5 5 : ℕ) : ℝ) :=
  (C3_edge_distance_weight 5 5 (by norm_num) (by norm_num)).2.2
    (by decide) (by decide)

/-! Claim C5: safe normalization. -/

/-- C5: at every canvas pixel the normalized result is valueSum/weightSum
where the weight sum is positive and exactly 0 otherwise; where the weight
sum is positive the division is exact (multiplying back by the weight sum
recovers the value sum), so no undefined value is ever produced. -/
theorem C5_normalization (a b : Grid) (i j : ℕ) :
    (0 < b i j → np_divide a b i j = a i j / b i j)
    ∧ (¬ 0 < b i j → np_divide a b i j = 0)
    ∧ (0 < b i j → np_divide a b i j * b i j = a i j) := by
  refine ⟨fun hb => ?_, fun hb => ?_, fun hb => ?_⟩
  · simp only [np_divide, if_pos hb]
  · simp only [np_divide, if_neg hb]
  · simp only [np_divide, if_pos hb]
    exact div_mul_cancel₀ (a i j) (ne_of_gt hb)

/-- C5 witness: a pixel with weight sum 2 and value sum 6 normalizes to 3,
and a pixel with weight sum 0 normalizes to 0. -/
theorem C5_normalization_witness :
    ((0 : ℝ) < 2 ∧ np_divide (fun _ _ => 6) (fun _ _ => 2) 0 0 = 6 / 2)
    ∧ (¬ (0 : ℝ) < 0 ∧ np_divide (fun _ _ => 6) (fun _ _ => 0) 1 1 = 0) :=
  ⟨⟨by norm_num, (C5_normalization (fun _ _ => 6) (fun _ _ => 2) 0 0).1 (by norm_num)⟩,
   ⟨by norm_num, (C5_normalization (fun _ _ => 6) (fun _ _ => 0) 1 1).2.1 (by norm_num)⟩⟩

/-! Claim C8: weight map invariants for all three modes. -/

/-- C8 counterexample: the claim says the Hann weight map is exactly 0 at
row 0, column 0, the last row and the last column for every patch
height/width; but `np.hanning(1)` is `[1]`, so the 1×1 Hann weight map has
value 1 at cell (0,0), which lies in row 0. -/
theorem C8_counterexample :
    weightFn "hann" 1 1 0 0 = 1 ∧ weightFn "hann" 1 1 0 0 ≠ 0 := by
  have e : weightFn "hann" 1 1 0 0 = 1 := by
    rw [weightFn_hann]
    simp only [hann_weight]
    rw [hanning_one]
    norm_num
  exact ⟨e, by rw [e]; norm_num⟩

/-- C8 (amended): for every recognised blend mode the weight map values
lie in [0,1]; the Uniform ("average") map is exactly 1 everywhere; the
Cosine/Hann map is exactly 0 on the first and last row provided h ≥ 2, and
on the first and last column provided w ≥ 2 (for a dimension equal to 1
the Hann factor is the single value 1, so the corresponding border is not
zeroed). -/
theorem C8_weight_map_invariants (b : String) (h w i j : ℕ)
    (hb : b = "average" ∨ b = "smooth" ∨ b = "hann")
    (hh : 1 ≤ h) (hw : 1 ≤ w) (hi : i < h) (hj : j < w) :
    (0 ≤ weightFn b h w i j ∧ weightFn b h w i j ≤ 1)
    ∧ (b = "average" → weightFn b h w i j = 1)
    ∧ (b = "hann" → 2 ≤ h → (i = 0 ∨ i = h - 1) → weightFn b h w i j = 0)
    ∧ (b = "hann" → 2 ≤ w → (j = 0 ∨ j = w - 1) → weightFn b h w i j = 0) := by
  rcases hb with rfl | rfl | rfl
  · refine ⟨⟨by rw [weightFn_average]; norm_num, by rw [weightFn_average]⟩,
      fun _ => by rw [weightFn_average], fun hab => absurd hab (by decide),
      fun hab => absurd hab (by decide)⟩
  · refine ⟨⟨distance_weight_nonneg h w i j,
      le_of_lt (distance_weight_lt_one h w i j hh hw hi hj)⟩,
      fun hab => absurd hab (by decide), fun hab => absurd hab (by decide),
      fun hab => absurd hab (by decide)⟩
  · refine ⟨⟨hann_weight_nonneg h w i j, hann_weight_le_one h w i j⟩,
      fun hab => absurd hab (by decide), fun _ h2 hio => ?_, fun _ h2 hjo => ?_⟩
    · rw [weightFn_hann]
      simp only [hann_weight]
      rcases hio with rfl | rfl
      · rw [hanning_first h h2, zero_mul]
      · rw [hanning_last h h2, zero_mul]
    · rw [weightFn_hann]
      simp only [hann_weight]
      rcases hjo with rfl | rfl
      · rw [hanning_first w h2, mul_zero]
      · rw [hanning_last w h2, mul_zero]

/-- C8 witness: the 2×2 Hann weight map is 0 at its corner cell (0,0),
and the Uniform map is 1 there. -/
theorem C8_weight_map_invariants_witness :
    weightFn "hann" 2 2 0 0 = 0 ∧ weightFn "average" 2 2 0 0 = 1 :=
  ⟨(C8_weight_map_invariants "hann" 2 2 0 0 (by decide) (by norm_num) (by norm_num)
      (by norm_num) (by norm_num)).2.2.1 rfl (by norm_num) (Or.inl rfl),
   (C8_weight_map_invariants "average" 2 2 0 0 (by decide) (by norm_num) (by norm_num)
      (by norm_num) (by norm_num)).2.1 rfl⟩

/-! Claim C9: saturating quantization. -/

/-- C9: quantization clips the normalized value to the representable range
of the output integer type and truncates — saturating, never wrapping: the
result is always within [0, 65535] (resp. [0, 255]), any value at or above
the top of the range maps to the top, and any value at or below 0 maps
to 0. -/
theorem C9_quantization_saturates (v : ℝ) :
    quant_u16 v = (⌊min (max v 0) 65535⌋).toNat
    ∧ quant_u16 v ≤ 65535
    ∧ ((65535 : ℝ) ≤ v → quant_u16 v = 65535)
    ∧ (v ≤ 0 → quant_u16 v = 0)
    ∧ quant_u8 v = (⌊min (max v 0) 255⌋).toNat
    ∧ quant_u8 v ≤ 255
    ∧ ((255 : ℝ) ≤ v → quant_u8 v = 255)
    ∧ (v ≤ 0 → quant_u8 v = 0) := by
  have hb16 : (⌊min (max v 0) 65535⌋ : ℤ) ≤ 65535 := by
    calc ⌊min (max v 0) 65535⌋ ≤ ⌊(65535 : ℝ)⌋ := Int.floor_mono (min_le_right _ _)
    _ = 65535 := by norm_num
  have hb8 : (⌊min (max v 0) 255⌋ : ℤ) ≤ 255 := by
    calc ⌊min (max v 0) 255⌋ ≤ ⌊(255 : ℝ)⌋ := Int.floor_mono (min_le_right _ _)
    _ = 255 := by norm_num
  refine ⟨rfl, Int.toNat_le.mpr hb16, fun hv => ?_, fun hv => ?_, rfl,
    Int.toNat_le.mpr hb8, fun hv => ?_, fun hv => ?_⟩
  · have hc : np_clip v 0 65535 = 65535 :=
      min_eq_right (le_trans hv (le_max_left _ _))
    rw [quant_u16, astype_uint, hc]
    rw [show ⌊(65535 : ℝ)⌋ = 65535 by norm_num]
    rfl
  · have hc : np_clip v 0 65535 = 0 := by
      rw [np_clip, max_eq_right hv]
      exact min_eq_left (by norm_num)
    rw [quant_u16, astype_uint, hc]
    norm_num
  · have hc : np_clip v 0 255 = 255 :=
      min_eq_right (le_trans hv (le_max_left _ _))
    rw [quant_u8, astype_uint, hc]
    rw [show ⌊(255 : ℝ)⌋ = 255 by norm_num]
    rfl
  · have hc : np_clip v 0 255 = 0 := by
      rw [np_clip, max_eq_right hv]
      exact min_eq_left (by norm_num)
    rw [quant_u8, astype_uint, hc]
    norm_num

/-- C9 witness: a normalized value of 70000 with uint16 output clips to
65535, and a normalized value of -5 clips to 0. -/
theorem C9_quantization_saturates_witness :
    ((65535 : ℝ) ≤ 70000 ∧ quant_u16 70000 = 65535)
    ∧ ((-5 : ℝ) ≤ 0 ∧ quant_u8 (-5) = 0) :=
  ⟨⟨by norm_num, (C9_quantization_saturates 70000).2.2.1 (by norm_num)⟩,
   ⟨by norm_num, (C9_quantization_saturates (-5)).2.2.2.2.2.2.2 (by norm_num)⟩⟩

/-! Helper lemmas about `pyIdx` and `sliceAdd`. -/

lemma pyIdx_nonneg (n : ℕ) (i : ℤ) (hi : 0 ≤ i) : pyIdx n i = min i.toNat n := by
  rw [pyIdx, if_neg (not_lt.mpr hi)]

lemma pyIdx_le (n : ℕ) (i : ℤ) : pyIdx n i ≤ n := by
  rw [pyIdx]
  split
  · omega
  · omega

lemma sliceAdd_eq (acc : Grid) (H W : ℕ) (ro co : ℤ) (h w : ℕ) (B : Grid) :
    sliceAdd acc H W ro co h w B =
      (if (h = pyIdx H (ro + (h : ℤ)) - pyIdx H ro ∨ h = 1)
          ∧ (w = pyIdx W (co + (w : ℤ)) - pyIdx W co ∨ w = 1) then
        .ok (fun i j =>
          if pyIdx H ro ≤ i ∧ i < pyIdx H (ro + (h : ℤ))
              ∧ pyIdx W co ≤ j ∧ j < pyIdx W (co + (w : ℤ)) then
            acc i j + B (if h = 1 then 0 else i - pyIdx H ro)
              (if w = 1 then 0 else j - pyIdx W co)
          else acc i j)
      else .error .broadcastValueError) := rfl

lemma clipped_len_lt (n : ℕ) (o : ℤ) (k : ℕ) (ho : 0 ≤ o) (hk : 1 ≤ k)
    (hn : (n : ℤ) < o + k) : pyIdx n (o + (k : ℤ)) - pyIdx n o < k := by
  rw [pyIdx_nonneg _ _ ho, pyIdx_nonneg _ _ (by omega)]
  have h1 : (o + (k : ℤ)).toNat = o.toNat + k := by omega
  have h2 : n < o.toNat + k := by omega
  omega

lemma sliceAdd_ok_cond {acc : Grid} {H W : ℕ} {ro co : ℤ} {h w : ℕ} {B g : Grid}
    (hg : sliceAdd acc H W ro co h w B = .ok g) :
    (h = pyIdx H (ro + (h : ℤ)) - pyIdx H ro ∨ h = 1)
    ∧ (w = pyIdx W (co + (w : ℤ)) - pyIdx W co ∨ w = 1) := by
  rw [sliceAdd_eq] at hg
  by_cases hcond : (h = pyIdx H (ro + (h : ℤ)) - pyIdx H ro ∨ h = 1)
      ∧ (w = pyIdx W (co + (w : ℤ)) - pyIdx W co ∨ w = 1)
  · exact hcond
  · rw [if_neg hcond] at hg
    exact absurd hg (by simp)

lemma sliceAdd_ok_apply {acc : Grid} {H W : ℕ} {ro co : ℤ} {h w : ℕ} {B g : Grid}
    (hg : sliceAdd acc H W ro co h w B = .ok g) (i j : ℕ) :
    g i j = if pyIdx H ro ≤ i ∧ i < pyIdx H (ro + (h : ℤ))
        ∧ pyIdx W co ≤ j ∧ j < pyIdx W (co + (w : ℤ)) then
      acc i j + B (if h = 1 then 0 else i - pyIdx H ro)
        (if w = 1 then 0 else j - pyIdx W co)
    else acc i j := by
  rw [sliceAdd_eq] at hg
  by_cases hcond : (h = pyIdx H (ro + (h : ℤ)) - pyIdx H ro ∨ h = 1)
      ∧ (w = pyIdx W (co + (w : ℤ)) - pyIdx W co ∨ w = 1)
  · rw [if_pos hcond] at hg
    injection hg with h'
    rw [← h']
  · rw [if_neg hcond] at hg
    exact absurd hg (by simp)

lemma sliceAdd_zero_B {acc : Grid} {H W : ℕ} {ro co : ℤ} {h w : ℕ} {B g : Grid}
    (hB : ∀ i < h, ∀ j < w, B i j = 0)
    (hg : sliceAdd acc H W ro co h w B = .ok g) : g = acc := by
  have hcond := sliceAdd_ok_cond hg
  funext i j
  rw [sliceAdd_ok_apply hg i j]
  by_cases hij : pyIdx H ro ≤ i ∧ i < pyIdx H (ro + (h : ℤ))
      ∧ pyIdx W co ≤ j ∧ j < pyIdx W (co + (w : ℤ))
  · rw [if_pos hij]
    obtain ⟨hi1, hi2, hj1, hj2⟩ := hij
    have hrow : (if h = 1 then 0 else i - pyIdx H ro) < h := by
      by_cases h1 : h = 1
      · rw [if_pos h1]
        omega
      · rw [if_neg h1]
        rcases hcond.1 with hE | hE
        · omega
        · exact absurd hE h1
    have hcol : (if w = 1 then 0 else j - pyIdx W co) < w := by
      by_cases h1 : w = 1
      · rw [if_pos h1]
        omega
      · rw [if_neg h1]
        rcases hcond.2 with hE | hE
        · omega
        · exact absurd hE h1
    rw [hB _ hrow _ hcol, add_zero]
  · rw [if_neg hij]

lemma sliceAdd_fit (acc : Grid) (H W : ℕ) (ro co : ℤ) (h w : ℕ) (B : Grid)
    (hro : 0 ≤ ro) (hco : 0 ≤ co)
    (hrH : ro.toNat + h ≤ H) (hcW : co.toNat + w ≤ W) :
    sliceAdd acc H W ro co h w B = .ok (fun i j =>
      if ro.toNat ≤ i ∧ i < ro.toNat + h ∧ co.toNat ≤ j ∧ j < co.toNat + w then
        acc i j + B (if h = 1 then 0 else i - ro.toNat) (if w = 1 then 0 else j - co.toNat)
      else acc i j) := by
  have h1 : pyIdx H ro = ro.toNat := by
    rw [pyIdx_nonneg _ _ hro]
    omega
  have h2 : pyIdx H (ro + (h : ℤ)) = ro.toNat + h := by
    rw [pyIdx_nonneg _ _ (by omega)]
    omega
  have h3 : pyIdx W co = co.toNat := by
    rw [pyIdx_nonneg _ _ hco]
    omega
  have h4 : pyIdx W (co + (w : ℤ)) = co.toNat + w := by
    rw [pyIdx_nonneg _ _ (by omega)]
    omega
  rw [sliceAdd_eq, h1, h2, h3, h4, if_pos ⟨Or.inl (by omega), Or.inl (by omega)⟩]

lemma weight_dispatch_average (h w : ℕ) :
    weight_dispatch "average" h w = .ok (fun _ _ => 1) := rfl

lemma weight_dispatch_smooth (h w : ℕ) :
    weight_dispatch "smooth" h w = .ok (distance_weight h w) := rfl

lemma weight_dispatch_hann (h w : ℕ) :
    weight_dispatch "hann" h w = .ok (hann_weight h w) := rfl

lemma weight_dispatch_unknown {blend : String} (hb1 : blend ≠ "average")
    (hb2 : blend ≠ "smooth") (hb3 : blend ≠ "hann") (h w : ℕ) :
    weight_dispatch blend h w = .error .valueErrorBlend := by
  rw [weight_dispatch, if_neg hb1, if_neg hb2, if_neg hb3]

lemma accumStep_ok_elim {blend : String} {mnx mxy psx psy : ℝ} {H W : ℕ}
    {st st2 : Grid × Grid} {p : Patch} {wt : Grid}
    (hwd : weight_dispatch blend p.h p.w = .ok wt)
    (hstep : accumStep blend mnx mxy psx psy H W st p = .ok st2) :
    sliceAdd st.1 H W (rowOff mxy psy p) (colOff mnx psx p) p.h p.w
        (fun i j => p.data i j * wt i j) = .ok st2.1
    ∧ sliceAdd st.2 H W (rowOff mxy psy p) (colOff mnx psx p) p.h p.w wt = .ok st2.2 := by
  rw [accumStep, hwd] at hstep
  dsimp only at hstep
  rcases hacc : sliceAdd st.1 H W (rowOff mxy psy p) (colOff mnx psx p) p.h p.w
      (fun i j => p.data i j * wt i j) with e | acc1
  · rw [hacc] at hstep
    exact absurd hstep (by simp)
  · rw [hacc] at hstep
    rcases hws : sliceAdd st.2 H W (rowOff mxy psy p) (colOff mnx psx p) p.h p.w wt
        with e | ws1
    · rw [hws] at hstep
      exact absurd hstep (by simp)
    · rw [hws] at hstep
      injection hstep with h2
      rw [← h2]
      exact ⟨rfl, rfl⟩

lemma accumStep_ok_intro {blend : String} {mnx mxy psx psy : ℝ} {H W : ℕ}
    {st : Grid × Grid} {p : Patch} {wt acc1 ws1 : Grid}
    (hwd : weight_dispatch blend p.h p.w = .ok wt)
    (hacc : sliceAdd st.1 H W (rowOff mxy psy p) (colOff mnx psx p) p.h p.w
      (fun i j => p.data i j * wt i j) = .ok acc1)
    (hws : sliceAdd st.2 H W (rowOff mxy psy p) (colOff mnx psx p) p.h p.w wt = .ok ws1) :
    accumStep blend mnx mxy psx psy H W st p = .ok (acc1, ws1) := by
  rw [accumStep, hwd]
  dsimp only
  rw [hacc]
  dsimp only
  rw [hws]

lemma accumStep_unknown_blend {blend : String} {mnx mxy psx psy : ℝ} {H W : ℕ}
    {st : Grid × Grid} {p : Patch} (hb1 : blend ≠ "average")
    (hb2 : blend ≠ "smooth") (hb3 : blend ≠ "hann") :
    accumStep blend mnx mxy psx psy H W st p = .error .valueErrorBlend := by
  rw [accumStep, weight_dispatch_unknown hb1 hb2 hb3]

/-! Claim C1: behaviour on a patch extending outside the canvas. -/

/-- C1 (amended): the code never raises the spec's
GeometryInconsistencyError.  The update `acc[ro:ro+h, co:co+w] += B` for a
patch whose offset plus shape extends outside the canvas instead (a) fails
with numpy's broadcast ValueError whenever both patch dimensions are at
least 2, and (b) when it does succeed, the slice clipping guarantees no
pixel outside the canvas-shaped accumulators is ever written (a patch with
an overhanging dimension of size 1 is silently clipped — see the
counterexample). -/
theorem C1_no_geometry_error (acc B : Grid) (H W : ℕ) (ro co : ℤ) (h w : ℕ) :
    (sliceAdd acc H W ro co h w B ≠ .error .geometryInconsistencyError)
    ∧ (0 ≤ ro → 0 ≤ co → 2 ≤ h → 2 ≤ w → ((H : ℤ) < ro + h ∨ (W : ℤ) < co + w) →
        sliceAdd acc H W ro co h w B = .error .broadcastValueError)
    ∧ (∀ g, sliceAdd acc H W ro co h w B = .ok g →
        ∀ i j, H ≤ i ∨ W ≤ j → g i j = acc i j) := by
  refine ⟨?_, ?_, ?_⟩
  · rw [sliceAdd_eq]
    split
    · simp
    · simp
  · intro hro hco hh hw hout
    rw [sliceAdd_eq]
    rcases hout with hH | hW
    · have hlt := clipped_len_lt H ro h hro (by omega) hH
      refine if_neg ?_
      rintro ⟨hA | h1, -⟩
      · omega
      · omega
    · have hlt := clipped_len_lt W co w hco (by omega) hW
      refine if_neg ?_
      rintro ⟨-, hA | h1⟩
      · omega
      · omega
  · intro g hg i j hij
    rw [sliceAdd_ok_apply hg i j]
    have hre := pyIdx_le H (ro + (h : ℤ))
    have hce := pyIdx_le W (co + (w : ℤ))
    refine if_neg ?_
    rintro ⟨-, h2, -, h4⟩
    omega

/-- C1 witness: a 3×3 patch at offset (0,0) on a 2×2 canvas overflows and
the in-place add fails with the broadcast ValueError (not a
GeometryInconsistencyError). -/
theorem C1_no_geometry_error_witness :
    (2 : ℤ) < 0 + ((3 : ℕ) : ℤ) ∧
    sliceAdd (fun _ _ => 0) 2 2 0 0 3 3 (fun _ _ => 0) = .error .broadcastValueError :=
  ⟨by norm_num,
   (C1_no_geometry_error (fun _ _ => 0) (fun _ _ => 0) 2 2 0 0 3 3).2.1 le_rfl le_rfl
     (by norm_num) (by norm_num) (Or.inl (by norm_num))⟩

/-! Claim C10: hann mode with a patch dimension equal to 2. -/

/-- C10: in "hann" mode a patch with height 2 or width 2 has an
identically-zero weight map (the Hann window of length 2 is [0,0]), so a
successful accumulation step over such a patch leaves both accumulators
exactly unchanged, and a canvas pixel whose weight sum is 0 normalizes
to 0. -/
theorem C10_hann_size_two (p : Patch) (hp : p.h = 2 ∨ p.w = 2) :
    (∀ i < p.h, ∀ j < p.w, weightFn "hann" p.h p.w i j = 0)
    ∧ (∀ mnx mxy psx psy : ℝ, ∀ H W : ℕ, ∀ st st2 : Grid × Grid,
        accumStep "hann" mnx mxy psx psy H W st p = .ok st2 → st2 = st)
    ∧ (∀ a b : Grid, ∀ i j : ℕ, b i j = 0 → np_divide a b i j = 0) := by
  have hwz : ∀ i < p.h, ∀ j < p.w, hann_weight p.h p.w i j = 0 := by
    intro i hi j hj
    simp only [hann_weight]
    rcases hp with h2 | h2
    · rw [h2] at hi ⊢
      rw [hanning_two i hi, zero_mul]
    · rw [h2] at hj ⊢
      rw [hanning_two j hj, mul_zero]
  refine ⟨?_, ?_, ?_⟩
  · intro i hi j hj
    rw [weightFn_hann]
    exact hwz i hi j hj
  · intro mnx mxy psx psy H W st st2 hstep
    obtain ⟨hacc, hws⟩ := accumStep_ok_elim (weight_dispatch_hann p.h p.w) hstep
    have e1 : st2.1 = st.1 :=
      sliceAdd_zero_B (fun i hi j hj => by rw [hwz i hi j hj, mul_zero]) hacc
    have e2 : st2.2 = st.2 := sliceAdd_zero_B hwz hws
    exact Prod.ext e1 e2
  · intro a b i j hb
    simp [np_divide, hb]

/-- C10 witness: a 2×3 patch in hann mode has weight 0 at cell (0,0). -/
theorem C10_hann_size_two_witness :
    weightFn "hann" 2 3 0 0 = 0 :=
  (C10_hann_size_two ⟨2, 3, fun _ _ => 7, 0, 2, 1, 1⟩ (Or.inl rfl)).1 0 (by decide) 0
    (by decide)

/-! Helper lemmas for the order-invariance of accumulation. -/

lemma except_bind_ok {ε α β : Type _} (a : α) (f : α → Except ε β) :
    (Except.ok a : Except ε α) >>= f = f a := rfl

lemma except_bind_err {ε α β : Type _} (e : ε) (f : α → Except ε β) :
    (Except.error e : Except ε α) >>= f = .error e := rfl

lemma sliceAdd_eq_mask (acc : Grid) (H W : ℕ) (ro co : ℤ) (h w : ℕ) (B : Grid)
    (hc : bcOK H W ro co h w) :
    sliceAdd acc H W ro co h w B = .ok (acc + winMask H W ro co h w B) := by
  have hc' : (h = pyIdx H (ro + (h : ℤ)) - pyIdx H ro ∨ h = 1)
      ∧ (w = pyIdx W (co + (w : ℤ)) - pyIdx W co ∨ w = 1) := hc
  rw [sliceAdd_eq, if_pos hc']
  congr 1
  funext i j
  simp only [winMask, Pi.add_apply]
  by_cases hwin : pyIdx H ro ≤ i ∧ i < pyIdx H (ro + (h : ℤ))
      ∧ pyIdx W co ≤ j ∧ j < pyIdx W (co + (w : ℤ))
  · rw [if_pos hwin, if_pos hwin]
  · rw [if_neg hwin, if_neg hwin, add_zero]

lemma sliceAdd_eq_err (acc : Grid) (H W : ℕ) (ro co : ℤ) (h w : ℕ) (B : Grid)
    (hc : ¬ bcOK H W ro co h w) :
    sliceAdd acc H W ro co h w B = .error .broadcastValueError := by
  rw [sliceAdd_eq]
  exact if_neg fun hcond => hc hcond

lemma accumStep_valid_pos {blend : String}
    (hb : blend = "average" ∨ blend = "smooth" ∨ blend = "hann")
    {mnx mxy psx psy : ℝ} {H W : ℕ} {p : Patch}
    (hc : bcOK H W (rowOff mxy psy p) (colOff mnx psx p) p.h p.w)
    (st : Grid × Grid) :
    accumStep blend mnx mxy psx psy H W st p = .ok
      (st.1 + winMask H W (rowOff mxy psy p) (colOff mnx psx p) p.h p.w
        (fun i j => p.data i j * weightFn blend p.h p.w i j),
       st.2 + winMask H W (rowOff mxy psy p) (colOff mnx psx p) p.h p.w
        (weightFn blend p.h p.w)) := by
  have hwd : weight_dispatch blend p.h p.w = .ok (weightFn blend p.h p.w) := by
    rcases hb with rfl | rfl | rfl <;> rfl
  exact accumStep_ok_intro hwd
    (sliceAdd_eq_mask st.1 H W (rowOff mxy psy p) (colOff mnx psx p) p.h p.w _ hc)
    (sliceAdd_eq_mask st.2 H W (rowOff mxy psy p) (colOff mnx psx p) p.h p.w _ hc)

lemma accumStep_valid_neg {blend : String}
    (hb : blend = "average" ∨ blend = "smooth" ∨ blend = "hann")
    {mnx mxy psx psy : ℝ} {H W : ℕ} {p : Patch}
    (hc : ¬ bcOK H W (rowOff mxy psy p) (colOff mnx psx p) p.h p.w)
    (st : Grid × Grid) :
    accumStep blend mnx mxy psx psy H W st p = .error .broadcastValueError := by
  have hwd : weight_dispatch blend p.h p.w = .ok (weightFn blend p.h p.w) := by
    rcases hb with rfl | rfl | rfl <;> rfl
  rw [accumStep, hwd]
  dsimp only
  rw [sliceAdd_eq_err st.1 H W (rowOff mxy psy p) (colOff mnx psx p) p.h p.w _ hc]

lemma foldlM_accumStep_swap {blend : String}
    (hb : blend = "average" ∨ blend = "smooth" ∨ blend = "hann")
    (mnx mxy psx psy : ℝ) (H W : ℕ) (p q : Patch) (l : List Patch) (st : Grid × Grid) :
    List.foldlM (accumStep blend mnx mxy psx psy H W) st (p :: q :: l)
      = List.foldlM (accumStep blend mnx mxy psx psy H W) st (q :: p :: l) := by
  by_cases hcp : bcOK H W (rowOff mxy psy p) (colOff mnx psx p) p.h p.w
  · by_cases hcq : bcOK H W (rowOff mxy psy q) (colOff mnx psx q) q.h q.w
    · simp only [List.foldlM_cons, accumStep_valid_pos hb hcp,
        accumStep_valid_pos hb hcq, except_bind_ok]
      rw [add_right_comm st.1, add_right_comm st.2]
    · simp only [List.foldlM_cons, accumStep_valid_pos hb hcp,
        accumStep_valid_neg hb hcq, except_bind_ok, except_bind_err]
  · by_cases hcq : bcOK H W (rowOff mxy psy q) (colOff mnx psx q) q.h q.w
    · simp only [List.foldlM_cons, accumStep_valid_neg hb hcp,
        accumStep_valid_pos hb hcq, except_bind_ok, except_bind_err]
    · simp only [List.foldlM_cons, accumStep_valid_neg hb hcp,
        accumStep_valid_neg hb hcq, except_bind_err]

lemma foldlM_accumStep_perm {blend : String}
    (hb : blend = "average" ∨ blend = "smooth" ∨ blend = "hann")
    (mnx mxy psx psy : ℝ) (H W : ℕ) {l l' : List Patch} (hp : l.Perm l') :
    ∀ st : Grid × Grid,
      List.foldlM (accumStep blend mnx mxy psx psy H W) st l
        = List.foldlM (accumStep blend mnx mxy psx psy H W) st l' := by
  induction hp with
  | nil => intro st; rfl
  | cons x hxs ih =>
    intro st
    rw [List.foldlM_cons, List.foldlM_cons]
    rcases hstep : accumStep blend mnx mxy psx psy H W st x with e | s1
    · rw [except_bind_err, except_bind_err]
    · rw [except_bind_ok, except_bind_ok]
      exact ih s1
  | swap x y l => exact fun st => foldlM_accumStep_swap hb mnx mxy psx psy H W y x l st
  | trans h1 h2 ih1 ih2 => exact fun st => (ih1 st).trans (ih2 st)

/-! Claim C6: order-invariance of the accumulation phase. -/

/-- C6: the accumulation phase is invariant under any permutation of the
patch list: in the exact-arithmetic model the final valueSum and weightSum
accumulators (and any error outcome) are identical for every processing
order, because each patch contributes a fixed pointwise increment added
into the two shared buffers by a commutative, associative addition. -/
theorem C6_order_invariance (blend : String) (mnx mxy psx psy : ℝ) (H W : ℕ)
    (l l' : List Patch) (hp : l.Perm l') :
    accumulate blend mnx mxy psx psy H W l
      = accumulate blend mnx mxy psx psy H W l' := by
  by_cases hb : blend = "average" ∨ blend = "smooth" ∨ blend = "hann"
  · exact foldlM_accumStep_perm hb mnx mxy psx psy H W hp _
  · push_neg at hb
    obtain ⟨hb1, hb2, hb3⟩ := hb
    rcases l with _ | ⟨p, l⟩
    · have h0 : l' = [] := List.Perm.eq_nil hp.symm
      rw [h0]
    · rcases l' with _ | ⟨q, l'⟩
      · exact absurd (List.Perm.eq_nil hp) (List.cons_ne_nil p l)
      · rw [accumulate, accumulate, List.foldlM_cons, List.foldlM_cons,
          accumStep_unknown_blend hb1 hb2 hb3, accumStep_unknown_blend hb1 hb2 hb3,
          except_bind_err, except_bind_err]

/-- C6 witness: swapping two concrete patches leaves the accumulation
result unchanged. -/
theorem C6_order_invariance_witness :
    ([patchA, patchB].Perm [patchB, patchA])
    ∧ accumulate "average" 0 4 1 1 4 4 [patchA, patchB]
      = accumulate "average" 0 4 1 1 4 4 [patchB, patchA] :=
  ⟨List.Perm.swap patchB patchA [],
   C6_order_invariance "average" 0 4 1 1 4 4 _ _ (List.Perm.swap patchB patchA [])⟩

/-! Helper lemmas: a fold of `min`/`max` computes the minimum/maximum. -/

lemma foldl_min_le (l : List Patch) (f : Patch → ℝ) (a : ℝ) :
    l.foldl (fun m q => min m (f q)) a ≤ a
    ∧ ∀ p ∈ l, l.foldl (fun m q => min m (f q)) a ≤ f p := by
  induction l generalizing a with
  | nil => simp
  | cons q l ih =>
    simp only [List.foldl_cons]
    refine ⟨le_trans (ih (min a (f q))).1 (min_le_left _ _), ?_⟩
    intro p hp
    rcases List.mem_cons.mp hp with rfl | hp'
    · exact le_trans (ih (min a (f p))).1 (min_le_right _ _)
    · exact (ih (min a (f q))).2 p hp'

lemma foldl_min_mem (l : List Patch) (f : Patch → ℝ) (a : ℝ) :
    l.foldl (fun m q => min m (f q)) a = a
    ∨ ∃ p ∈ l, l.foldl (fun m q => min m (f q)) a = f p := by
  induction l generalizing a with
  | nil => exact Or.inl rfl
  | cons q l ih =>
    simp only [List.foldl_cons]
    rcases ih (min a (f q)) with h | ⟨p, hp, hpe⟩
    · rcases le_total a (f q) with hle | hle
      · exact Or.inl (by rw [h, min_eq_left hle])
      · exact Or.inr ⟨q, List.mem_cons_self q l, by rw [h, min_eq_right hle]⟩
    · exact Or.inr ⟨p, List.mem_cons_of_mem q hp, hpe⟩

lemma foldl_max_ge (l : List Patch) (f : Patch → ℝ) (a : ℝ) :
    a ≤ l.foldl (fun m q => max m (f q)) a
    ∧ ∀ p ∈ l, f p ≤ l.foldl (fun m q => max m (f q)) a := by
  induction l generalizing a with
  | nil => simp
  | cons q l ih =>
    simp only [List.foldl_cons]
    refine ⟨le_trans (le_max_left _ _) (ih (max a (f q))).1, ?_⟩
    intro p hp
    rcases List.mem_cons.mp hp with rfl | hp'
    · exact le_trans (le_max_right _ _) (ih (max a (f p))).1
    · exact (ih (max a (f q))).2 p hp'

lemma foldl_max_mem (l : List Patch) (f : Patch → ℝ) (a : ℝ) :
    l.foldl (fun m q => max m (f q)) a = a
    ∨ ∃ p ∈ l, l.foldl (fun m q => max m (f q)) a = f p := by
  induction l generalizing a with
  | nil => exact Or.inl rfl
  | cons q l ih =>
    simp only [List.foldl_cons]
    rcases ih (max a (f q)) with h | ⟨p, hp, hpe⟩
    · rcases le_total a (f q) with hle | hle
      · exact Or.inr ⟨q, List.mem_cons_self q l, by rw [h, max_eq_right hle]⟩
      · exact Or.inl (by rw [h, max_eq_left hle])
    · exact Or.inr ⟨p, List.mem_cons_of_mem q hp, hpe⟩

/-! Claim C7: canvas sizing. -/

/-- C7: for a non-empty patch list the bounds loop computes the true
elementwise minimum/maximum of the patch bounding boxes (minimum of left
and bottom edges, maximum of right and top edges, each attained by some
patch), the canvas width is exactly ceil((maxx - minx)/pixelSizeX), the
canvas height is exactly ceil((maxy - miny)/pixelSizeY), and the pixel
sizes are those of the first (reference) patch. -/
theorem C7_canvas_size (ps : List Patch) (hne : ps ≠ []) :
    ((∀ p ∈ ps, minxOf ps ≤ p.left) ∧ (∃ p ∈ ps, minxOf ps = p.left))
    ∧ ((∀ p ∈ ps, p.right ≤ maxxOf ps) ∧ (∃ p ∈ ps, maxxOf ps = p.right))
    ∧ ((∀ p ∈ ps, minyOf ps ≤ p.bottom) ∧ (∃ p ∈ ps, minyOf ps = p.bottom))
    ∧ ((∀ p ∈ ps, p.top ≤ maxyOf ps) ∧ (∃ p ∈ ps, maxyOf ps = p.top))
    ∧ canvasWidthZ ps = Int.ceil ((maxxOf ps - minxOf ps) / psxRef ps)
    ∧ canvasHeightZ ps = Int.ceil ((maxyOf ps - minyOf ps) / psyRef ps)
    ∧ (∀ p₀ l, ps = p₀ :: l → psxRef ps = p₀.psx ∧ psyRef ps = p₀.psy) := by
  obtain ⟨p₀, l, rfl⟩ := List.exists_cons_of_ne_nil hne
  refine ⟨⟨?_, ?_⟩, ⟨?_, ?_⟩, ⟨?_, ?_⟩, ⟨?_, ?_⟩, rfl, rfl, ?_⟩
  · intro p hp
    rcases List.mem_cons.mp hp with rfl | hp'
    · exact (foldl_min_le l (fun q => q.left) p.left).1
    · exact (foldl_min_le l (fun q => q.left) p₀.left).2 p hp'
  · rcases foldl_min_mem l (fun q => q.left) p₀.left with h | ⟨p, hp, hpe⟩
    · exact ⟨p₀, List.mem_cons_self p₀ l, h⟩
    · exact ⟨p, List.mem_cons_of_mem p₀ hp, hpe⟩
  · intro p hp
    rcases List.mem_cons.mp hp with rfl | hp'
    · exact (foldl_max_ge l (fun q => q.right) p.right).1
    · exact (foldl_max_ge l (fun q => q.right) p₀.right).2 p hp'
  · rcases foldl_max_mem l (fun q => q.right) p₀.right with h | ⟨p, hp, hpe⟩
    · exact ⟨p₀, List.mem_cons_self p₀ l, h⟩
    · exact ⟨p, List.mem_cons_of_mem p₀ hp, hpe⟩
  · intro p hp
    rcases List.mem_cons.mp hp with rfl | hp'
    · exact (foldl_min_le l (fun q => q.bottom) p.bottom).1
    · exact (foldl_min_le l (fun q => q.bottom) p₀.bottom).2 p hp'
  · rcases foldl_min_mem l (fun q => q.bottom) p₀.bottom with h | ⟨p, hp, hpe⟩
    · exact ⟨p₀, List.mem_cons_self p₀ l, h⟩
    · exact ⟨p, List.mem_cons_of_mem p₀ hp, hpe⟩
  · intro p hp
    rcases List.mem_cons.mp hp with rfl | hp'
    · exact (foldl_max_ge l (fun q => q.top) p.top).1
    · exact (foldl_max_ge l (fun q => q.top) p₀.top).2 p hp'
  · rcases foldl_max_mem l (fun q => q.top) p₀.top with h | ⟨p, hp, hpe⟩
    · exact ⟨p₀, List.mem_cons_self p₀ l, h⟩
    · exact ⟨p, List.mem_cons_of_mem p₀ hp, hpe⟩
  · intro p₀' l' heq
    injection heq with h1 h2
    subst h1
    exact ⟨rfl, rfl⟩

/-- C7 witness: applied to the singleton list containing `patchA`. -/
theorem C7_canvas_size_witness :
    ([patchA] : List Patch) ≠ []
    ∧ canvasWidthZ [patchA]
      = Int.ceil ((maxxOf [patchA] - minxOf [patchA]) / psxRef [patchA]) :=
  ⟨List.cons_ne_nil _ _, (C7_canvas_size [patchA] (List.cons_ne_nil _ _)).2.2.2.2.1⟩

lemma gridAt_ok (r : Grid) (i j : ℕ) : gridAt (.ok r) i j = r i j := rfl

lemma outputAt_ok (o : BlendOutput) (i j : ℕ) : outputAt (.ok o) i j = o.result i j := rfl

lemma pyIdx_zero (n : ℕ) : pyIdx n (0 : ℤ) = 0 := by
  rw [pyIdx_nonneg _ _ le_rfl]
  omega

lemma pyIdx_zero_add (n h : ℕ) (hh : h ≤ n) : pyIdx n ((0 : ℤ) + (h : ℤ)) = h := by
  rw [pyIdx_nonneg _ _ (by omega)]
  omega

lemma bcOK_fit (h w : ℕ) : bcOK h w 0 0 h w := by
  unfold bcOK
  refine ⟨Or.inl ?_, Or.inl ?_⟩
  · rw [pyIdx_zero, pyIdx_zero_add h h le_rfl]
    omega
  · rw [pyIdx_zero, pyIdx_zero_add w w le_rfl]
    omega

lemma winMask_fit (h w : ℕ) (B : Grid) :
    winMask h w 0 0 h w B = fun i j => if i < h ∧ j < w then B i j else 0 := by
  funext i j
  simp only [winMask]
  rw [pyIdx_zero, pyIdx_zero_add h h le_rfl, pyIdx_zero, pyIdx_zero_add w w le_rfl]
  by_cases hij : i < h ∧ j < w
  · rw [if_pos ⟨Nat.zero_le i, hij.1, Nat.zero_le j, hij.2⟩, if_pos hij]
    have e1 : (if h = 1 then 0 else i - 0) = i := by
      split
      · omega
      · omega
    have e2 : (if w = 1 then 0 else j - 0) = j := by
      split
      · omega
      · omega
    rw [e1, e2]
  · rw [if_neg (fun hc => hij ⟨hc.2.1, hc.2.2.2⟩), if_neg hij]

lemma maxyOf_single (p : Patch) : maxyOf [p] = p.top := rfl

lemma minxOf_single (p : Patch) : minxOf [p] = p.left := rfl

lemma canvasHeightZ_single (p : Patch) (hpy : 0 < p.psy) :
    canvasHeightZ [p] = p.h := by
  rw [canvasHeightZ]
  have h1 : maxyOf [p] = p.top := rfl
  have h2 : minyOf [p] = p.bottom := rfl
  have h3 : psyRef [p] = p.psy := rfl
  rw [h1, h2, h3, Patch.bottom]
  have h4 : (p.top - (p.top - (p.h : ℝ) * p.psy)) / p.psy = (p.h : ℝ) := by
    rw [div_eq_iff (ne_of_gt hpy)]
    ring
  rw [h4, Int.ceil_natCast]

lemma canvasWidthZ_single (p : Patch) (hpx : 0 < p.psx) :
    canvasWidthZ [p] = p.w := by
  rw [canvasWidthZ]
  have h1 : maxxOf [p] = p.right := rfl
  have h2 : minxOf [p] = p.left := rfl
  have h3 : psxRef [p] = p.psx := rfl
  rw [h1, h2, h3, Patch.right]
  have h4 : (p.left + (p.w : ℝ) * p.psx - p.left) / p.psx = (p.w : ℝ) := by
    rw [div_eq_iff (ne_of_gt hpx)]
    ring
  rw [h4, Int.ceil_natCast]

lemma canvasH_single (p : Patch) (hpy : 0 < p.psy) : canvasH [p] = p.h := by
  rw [canvasH, canvasHeightZ_single p hpy, Int.toNat_natCast]

lemma canvasW_single (p : Patch) (hpx : 0 < p.psx) : canvasW [p] = p.w := by
  rw [canvasW, canvasWidthZ_single p hpx, Int.toNat_natCast]

lemma rowOff_single (p : Patch) : rowOff (maxyOf [p]) p.psy p = 0 := by
  show rowOff p.top p.psy p = 0
  rw [rowOff, sub_self, zero_div, pyRound_zero]

lemma colOff_single (p : Patch) : colOff (minxOf [p]) p.psx p = 0 := by
  show colOff p.left p.psx p = 0
  rw [colOff, sub_self, zero_div, pyRound_zero]

lemma accumulate_single {blend : String}
    (hb : blend = "average" ∨ blend = "smooth" ∨ blend = "hann") (p : Patch)
    (hpx : 0 < p.psx) (hpy : 0 < p.psy) :
    accumulate blend (minxOf [p]) (maxyOf [p]) p.psx p.psy (canvasH [p]) (canvasW [p]) [p]
      = .ok (fun i j => if i < p.h ∧ j < p.w then
               p.data i j * weightFn blend p.h p.w i j else 0,
             fun i j => if i < p.h ∧ j < p.w then weightFn blend p.h p.w i j else 0) := by
  rw [canvasH_single p hpy, canvasW_single p hpx]
  have hc : bcOK p.h p.w (rowOff (maxyOf [p]) p.psy p) (colOff (minxOf [p]) p.psx p)
      p.h p.w := by
    rw [rowOff_single, colOff_single]
    exact bcOK_fit p.h p.w
  rw [accumulate, List.foldlM_cons, accumStep_valid_pos hb hc, except_bind_ok,
    List.foldlM_nil]
  rw [rowOff_single, colOff_single, winMask_fit, winMask_fit]
  show Except.ok _ = Except.ok _
  refine congrArg Except.ok (Prod.ext ?_ ?_)
  · funext i j
    simp only [Pi.add_apply]
    rw [zero_add]
  · funext i j
    simp only [Pi.add_apply]
    rw [zero_add]

lemma blendNormalized_cons_ok {p₀ : Patch} {l : List Patch} {blend : String}
    {st : Grid × Grid}
    (ha : accumulate blend (minxOf (p₀ :: l)) (maxyOf (p₀ :: l)) p₀.psx p₀.psy
      (canvasH (p₀ :: l)) (canvasW (p₀ :: l)) (p₀ :: l) = .ok st) :
    blendNormalized (p₀ :: l) blend = .ok (np_divide st.1 st.2) := by
  rw [blendNormalized, ha]

lemma blendNormalized_cons_err {p₀ : Patch} {l : List Patch} {blend : String}
    {e : PyErr}
    (ha : accumulate blend (minxOf (p₀ :: l)) (maxyOf (p₀ :: l)) p₀.psx p₀.psy
      (canvasH (p₀ :: l)) (canvasW (p₀ :: l)) (p₀ :: l) = .error e) :
    blendNormalized (p₀ :: l) blend = .error e := by
  rw [blendNormalized, ha]

lemma blend_patches_ok {ps : List Patch} {blend dtype : String} {r : Grid}
    (hbn : blendNormalized ps blend = .ok r) :
    blend_patches_to_raster ps blend dtype
      = .ok ⟨canvasH ps, canvasW ps, quantizeArr dtype r⟩ := by
  rw [blend_patches_to_raster, hbn]

lemma blend_patches_err {ps : List Patch} {blend dtype : String} {e : PyErr}
    (hbn : blendNormalized ps blend = .error e) :
    blend_patches_to_raster ps blend dtype = .error e := by
  rw [blend_patches_to_raster, hbn]

lemma blendNormalized_single {blend : String}
    (hb : blend = "average" ∨ blend = "smooth" ∨ blend = "hann") (p : Patch)
    (hpx : 0 < p.psx) (hpy : 0 < p.psy) :
    blendNormalized [p] blend = .ok (fun i j =>
      if i < p.h ∧ j < p.w ∧ 0 < weightFn blend p.h p.w i j
      then p.data i j else 0) := by
  rw [blendNormalized_cons_ok (accumulate_single hb p hpx hpy)]
  refine congrArg Except.ok ?_
  funext i j
  simp only [np_divide]
  by_cases hij : i < p.h ∧ j < p.w
  · rw [if_pos hij, if_pos hij]
    by_cases hwt : 0 < weightFn blend p.h p.w i j
    · rw [if_pos hwt, if_pos ⟨hij.1, hij.2, hwt⟩]
      exact mul_div_cancel_right₀ (p.data i j) (ne_of_gt hwt)
    · rw [if_neg hwt, if_neg (fun hc => hwt hc.2.2)]
  · rw [if_neg hij, if_neg hij, if_neg (lt_irrefl (0 : ℝ))]
    exact (if_neg fun hc => hij ⟨hc.1, hc.2.1⟩).symm

/-! Claim C2: blending a single patch alone. -/

/-- C2 (amended): blending a single patch alone reproduces the patch's
original value at every covered pixel where the selected mode's weight is
positive; the blend succeeds.  (At covered pixels whose weight is zero —
the border ring in "smooth" mode, the first/last row/column in "hann"
mode — the normalized result is 0 rather than the patch value, see the
counterexample.) -/
theorem C2_single_patch (p : Patch) (blend : String) (i j : ℕ)
    (hb : blend = "average" ∨ blend = "smooth" ∨ blend = "hann")
    (hpx : 0 < p.psx) (hpy : 0 < p.psy) (hi : i < p.h) (hj : j < p.w)
    (hwt : 0 < weightFn blend p.h p.w i j) :
    exceptIsOk (blendNormalized [p] blend) = true
    ∧ gridAt (blendNormalized [p] blend) i j = p.data i j := by
  rw [blendNormalized_single hb p hpx hpy]
  refine ⟨rfl, ?_⟩
  rw [gridAt_ok, if_pos ⟨hi, hj, hwt⟩]

/-- C2 witness: a single 4×4 patch of constant value 5 in "average" mode
reproduces its value at pixel (1,1). -/
theorem C2_single_patch_witness :
    (0 : ℝ) < weightFn "average" patchA.h patchA.w 1 1
    ∧ exceptIsOk (blendNormalized [patchA] "average") = true
    ∧ gridAt (blendNormalized [patchA] "average") 1 1 = patchA.data 1 1 := by
  have hwt : (0 : ℝ) < weightFn "average" patchA.h patchA.w 1 1 := by
    rw [weightFn_average]
    norm_num
  have h := C2_single_patch patchA "average" 1 1 (Or.inl rfl) (by norm_num [patchA])
    (by norm_num [patchA]) (by norm_num [patchA]) (by norm_num [patchA]) hwt
  exact ⟨hwt, h.1, h.2⟩

/-- C2 counterexample: blending the single 3×3 patch `patchS` (constant
value 5) alone in "smooth" mode succeeds but yields 0, not 5, at the
covered corner pixel (0,0), because the EdgeDistance weight is 0 on the
border ring, so weightSum is 0 there and normalization zero-fills. -/
theorem C2_counterexample :
    exceptIsOk (blendNormalized [patchS] "smooth") = true
    ∧ gridAt (blendNormalized [patchS] "smooth") 0 0 = 0
    ∧ patchS.data 0 0 = 5
    ∧ gridAt (blendNormalized [patchS] "smooth") 0 0 ≠ patchS.data 0 0 := by
  have hb : "smooth" = "average" ∨ "smooth" = "smooth" ∨ "smooth" = "hann" :=
    Or.inr (Or.inl rfl)
  have h0 : gridAt (blendNormalized [patchS] "smooth") 0 0 = 0 := by
    rw [blendNormalized_single hb patchS (by norm_num [patchS]) (by norm_num [patchS]),
      gridAt_ok]
    refine if_neg ?_
    rintro ⟨-, -, hwt⟩
    rw [weightFn_smooth] at hwt
    rw [show distance_weight patchS.h patchS.w 0 0 = 0 from
      distance_weight_border 3 3 0 0 (by norm_num) (by norm_num) (Or.inl rfl)] at hwt
    exact absurd hwt (lt_irrefl 0)
  refine ⟨?_, h0, rfl, ?_⟩
  · rw [blendNormalized_single hb patchS (by norm_num [patchS]) (by norm_num [patchS])]
    rfl
  · rw [h0]
    norm_num [patchS]

/-! Claim C4: failure semantics of the configuration surface. -/

/-- C4 (amended): an empty patch list fails with
FileNotFoundError (the spec's InputNotFoundError) before anything runs;
an unknown blend mode fails with ValueError (the spec's
ConfigurationError) on the first loop iteration, before anything is
accumulated and with no output produced; but an unknown output dtype
raises nothing — the dtype conversion step has no else branch and silently
passes the un-quantized float result through. -/
theorem C4_failure_semantics (p : Patch) (ps : List Patch) (b d : String) (r : Grid)
    (hb1 : b ≠ "average") (hb2 : b ≠ "smooth") (hb3 : b ≠ "hann")
    (hd1 : d ≠ "uint16") (hd2 : d ≠ "uint8") :
    blend_patches_to_raster [] b d = .error .fileNotFoundError
    ∧ blend_patches_to_raster (p :: ps) b d = .error .valueErrorBlend
    ∧ quantizeArr d r = r := by
  refine ⟨rfl, ?_, ?_⟩
  · refine blend_patches_err (blendNormalized_cons_err ?_)
    rw [accumulate, List.foldlM_cons, accumStep_unknown_blend hb1 hb2 hb3, except_bind_err]
  · rw [quantizeArr, if_neg hd1, if_neg hd2]

/-- C4 witness: blend mode "linear" and dtype "float32" are unknown, and
the blend fails with the unknown-mode ValueError. -/
theorem C4_failure_semantics_witness :
    ("linear" : String) ≠ "average"
    ∧ ("float32" : String) ≠ "uint16"
    ∧ blend_patches_to_raster [patchQ] "linear" "float32" = .error .valueErrorBlend :=
  ⟨by decide, by decide,
   (C4_failure_semantics patchQ [] "linear" "float32" (fun _ _ => 0)
     (by decide) (by decide) (by decide) (by decide) (by decide)).2.1⟩

/-- C4 counterexample: with the unknown output dtype "float32" the blend
does not raise any error at all — it completes, and the pixel value 70000
is passed through un-clipped (the uint16 quantization step was silently
skipped), refuting "an unknown output dtype raises ConfigurationError
before any processing begins". -/
theorem C4_counterexample :
    exceptIsOk (blend_patches_to_raster [patchQ] "average" "float32") = true
    ∧ outputAt (blend_patches_to_raster [patchQ] "average" "float32") 0 0 = 70000 := by
  have hb : "average" = "average" ∨ "average" = "smooth" ∨ "average" = "hann" :=
    Or.inl rfl
  have hbn := blendNormalized_single hb patchQ (by norm_num [patchQ]) (by norm_num [patchQ])
  rw [blend_patches_ok hbn]
  refine ⟨rfl, ?_⟩
  rw [outputAt_ok]
  show quantizeArr "float32" _ 0 0 = 70000
  rw [quantizeArr, if_neg (by decide), if_neg (by decide)]
  show (if 0 < patchQ.h ∧ 0 < patchQ.w ∧ 0 < weightFn "average" patchQ.h patchQ.w 0 0
      then patchQ.data 0 0 else 0) = 70000
  rw [if_pos ⟨by decide, by decide, by rw [weightFn_average]; norm_num⟩]
  rfl

/-- C1 counterexample: blending `patchA` (4×4, pixel size 1, top 4) with
`patchB` (1×4, pixel size 1/4, top 1/4) yields a 4×4 canvas on which
`patchB`'s computed row offset is round((4 - 1/4)/1) = 4, so offset + height
= 5 extends past the canvas; yet the blend succeeds (numpy broadcasts the
1-row patch into the empty clipped window, silently dropping its
contribution) instead of failing with GeometryInconsistencyError. -/
theorem C1_counterexample :
    canvasHeightZ [patchA, patchB]
        < rowOff (maxyOf [patchA, patchB]) (psyRef [patchA, patchB]) patchB + (patchB.h : ℤ)
    ∧ exceptIsOk (blend_patches_to_raster [patchA, patchB] "average" "uint16") = true := by
  have hmy : maxyOf [patchA, patchB] = 4 := by
    show max patchA.top patchB.top = 4
    rw [max_eq_left (by norm_num [patchA, patchB])]
    norm_num [patchA]
  have hmny : minyOf [patchA, patchB] = 0 := by
    show min patchA.bottom patchB.bottom = 0
    rw [show patchA.bottom = 0 by norm_num [Patch.bottom, patchA],
      show patchB.bottom = 0 by norm_num [Patch.bottom, patchB], min_self]
  have hmnx : minxOf [patchA, patchB] = 0 := by
    show min patchA.left patchB.left = 0
    rw [show patchA.left = 0 by norm_num [patchA],
      show patchB.left = 0 by norm_num [patchB], min_self]
  have hmxx : maxxOf [patchA, patchB] = 4 := by
    show max patchA.right patchB.right = 4
    rw [show patchA.right = 4 by norm_num [Patch.right, patchA],
      show patchB.right = 4 by norm_num [Patch.right, patchB], max_self]
  have hpsy : psyRef [patchA, patchB] = 1 := by
    show patchA.psy = 1
    norm_num [patchA]
  have hpsx : psxRef [patchA, patchB] = 1 := by
    show patchA.psx = 1
    norm_num [patchA]
  have hHZ : canvasHeightZ [patchA, patchB] = 4 := by
    rw [canvasHeightZ, hmy, hmny, hpsy]
    norm_num
  have hWZ : canvasWidthZ [patchA, patchB] = 4 := by
    rw [canvasWidthZ, hmxx, hmnx, hpsx]
    norm_num
  have hH : canvasH [patchA, patchB] = 4 := by
    rw [canvasH, hHZ]
    rfl
  have hW : canvasW [patchA, patchB] = 4 := by
    rw [canvasW, hWZ]
    rfl
  have hroB : rowOff (maxyOf [patchA, patchB]) patchA.psy patchB = 4 := by
    rw [rowOff, hmy]
    rw [show ((4 : ℝ) - patchB.top) / patchA.psy = 15 / 4 by norm_num [patchA, patchB]]
    exact pyRound_eq (by norm_num) (by norm_num)
  have hroA : rowOff (maxyOf [patchA, patchB]) patchA.psy patchA = 0 := by
    rw [rowOff, hmy]
    rw [show ((4 : ℝ) - patchA.top) / patchA.psy = 0 by norm_num [patchA]]
    exact pyRound_zero
  have hcoA : colOff (minxOf [patchA, patchB]) patchA.psx patchA = 0 := by
    rw [colOff, hmnx]
    rw [show (patchA.left - (0 : ℝ)) / patchA.psx = 0 by norm_num [patchA]]
    exact pyRound_zero
  have hcoB : colOff (minxOf [patchA, patchB]) patchA.psx patchB = 0 := by
    rw [colOff, hmnx]
    rw [show (patchB.left - (0 : ℝ)) / patchA.psx = 0 by norm_num [patchA, patchB]]
    exact pyRound_zero
  constructor
  · rw [hHZ]
    have h4 : rowOff (maxyOf [patchA, patchB]) (psyRef [patchA, patchB]) patchB = 4 := hroB
    rw [h4]
    norm_num [patchB]
  · have hcA : bcOK (canvasH [patchA, patchB]) (canvasW [patchA, patchB])
        (rowOff (maxyOf [patchA, patchB]) patchA.psy patchA)
        (colOff (minxOf [patchA, patchB]) patchA.psx patchA) patchA.h patchA.w := by
      rw [hH, hW, hroA, hcoA]
      exact bcOK_fit 4 4
    have hcB : bcOK (canvasH [patchA, patchB]) (canvasW [patchA, patchB])
        (rowOff (maxyOf [patchA, patchB]) patchA.psy patchB)
        (colOff (minxOf [patchA, patchB]) patchA.psx patchB) patchB.h patchB.w := by
      rw [hH, hW, hroB, hcoB]
      show bcOK 4 4 4 0 1 4
      unfold bcOK
      refine ⟨Or.inr rfl, Or.inl ?_⟩
      rw [pyIdx_zero, pyIdx_zero_add 4 4 le_rfl]
    have haccum : exceptIsOk (accumulate "average" (minxOf [patchA, patchB])
        (maxyOf [patchA, patchB]) patchA.psx patchA.psy
        (canvasH [patchA, patchB]) (canvasW [patchA, patchB]) [patchA, patchB]) = true := by
      rw [accumulate, List.foldlM_cons, accumStep_valid_pos (Or.inl rfl) hcA,
        except_bind_ok, List.foldlM_cons, accumStep_valid_pos (Or.inl rfl) hcB,
        except_bind_ok, List.foldlM_nil]
      rfl
    rcases ha : accumulate "average" (minxOf [patchA, patchB]) (maxyOf [patchA, patchB])
        patchA.psx patchA.psy (canvasH [patchA, patchB]) (canvasW [patchA, patchB])
        [patchA, patchB] with e | st
    · rw [ha] at haccum
      exact absurd haccum (by simp [exceptIsOk])
    · rw [blend_patches_ok (blendNormalized_cons_ok ha)]
      rfl
